import Mathlib

/-!
# Verification of the vitest-mcp-server tool functions

Shallow embedding, in Lean 4, of the pure data transformations performed by
the `vitest-mcp-server` repository: the zero-count coverage filter
(`src/tools/analyzeCoverage.ts`), the test scaffolder
(`src/tools/generateTests.ts`), the Vitest setup file writer
(`setupVitest`), the coverage diff (`src/tools/coverageDiff.ts`), the test
profiler (`profileTests`), the plugin loader (`src/plugins/loader.ts`),
the AI test writer (`generateAITests`), the HTTP route handlers of
`src/index.ts` and of the plugin routers, and the process-wide state of the
`localLLMService` singleton (`src/services/localLLMService.ts`).

JSON objects are embedded as association lists (preserving insertion order,
which is the iteration order of `Object.keys` / `Object.entries` for
string keys), file systems as functions from paths (component lists) to
optional file contents, and subprocess / network effects as explicit
oracle parameters.
-/

namespace VitestMCP

/-! ## Coverage artifact data model

`coverage-final.json`: a mapping from file path to an object with
per-statement hit counts (`s`), per-branch hit-count arrays (`b`) and
per-function hit counts (`f`).  Missing `s`/`b`/`f` keys (`data.s || {}`)
are embedded as the empty list. -/

/-- One file's entry in the coverage artifact: statement counts `s`,
branch hit-count arrays `b`, function counts `f`, each an ordered map
from id to count(s). -/
structure FileCov where
  s : List (String × Nat)
  b : List (String × List Nat)
  f : List (String × Nat)
deriving DecidableEq, Repr

/-- The coverage artifact: an ordered map from file path to `FileCov`. -/
abbrev CovMap := List (String × FileCov)

/-- An element of the `uncovered` array built by `analyzeCoverage`
(`src/tools/analyzeCoverage.ts`): `{ file, type, id }`. -/
structure UncoveredEntry where
  file : String
  type : String
  id : String
deriving DecidableEq, Repr

/-- The entries contributed by one file of the coverage map, in the order
of the loops of `analyzeCoverage`: statements with `count === 0`, then
branches with `counts.some(c => c === 0)`, then functions with
`count === 0`. -/
def fileUncovered (file : String) (d : FileCov) : List UncoveredEntry :=
  ((d.s.filter fun p => p.2 == 0).map fun p => ⟨file, "statement", p.1⟩)
    ++ ((d.b.filter fun p => p.2.any fun c => c == 0).map fun p => ⟨file, "branch", p.1⟩)
    ++ ((d.f.filter fun p => p.2 == 0).map fun p => ⟨file, "function", p.1⟩)

/-- The `uncovered` array of `analyzeCoverage`: the per-file entries
concatenated over `Object.keys(coverage)` in order. -/
def uncoveredList (cov : CovMap) : List UncoveredEntry :=
  cov.flatMap fun fd => fileUncovered fd.1 fd.2

/-- Whether the coverage map marks `⟨file, "statement", id⟩` uncovered:
some file entry named `file` has statement `id` with hit count zero. -/
def zeroStmt (cov : CovMap) (file id : String) : Bool :=
  cov.any fun fd => fd.1 == file && (fd.2.s.any fun p => p.1 == id && p.2 == 0)

/-- Whether some file entry named `file` has function `id` with hit count
zero. -/
def zeroFn (cov : CovMap) (file id : String) : Bool :=
  cov.any fun fd => fd.1 == file && (fd.2.f.any fun p => p.1 == id && p.2 == 0)

/-- Whether some file entry named `file` has branch `id` whose hit-count
array has at least one element equal to zero. -/
def zeroBranch (cov : CovMap) (file id : String) : Bool :=
  cov.any fun fd => fd.1 == file && (fd.2.b.any fun p => p.1 == id && (p.2.any fun c => c == 0))

/-- The classification the specification describes: an entry belongs in the
uncovered list exactly when its id has a zero count of the matching kind. -/
def specUncovered (cov : CovMap) (e : UncoveredEntry) : Bool :=
  if e.type = "statement" then zeroStmt cov e.file e.id
  else if e.type = "branch" then zeroBranch cov e.file e.id
  else if e.type = "function" then zeroFn cov e.file e.id
  else false

/-- Building an `UncoveredEntry` from an id, at a fixed file and type, is
injective in the id. -/
lemma mkEntry_injective (file T : String) :
    Function.Injective (fun k => (⟨file, T, k⟩ : UncoveredEntry)) := by
  intro a b h
  simpa using h

/-- Counting a key among the keys of a filtered association list with
`Nodup` keys: one occurrence when some pair passes the filter at that key,
none otherwise. -/
lemma count_key_filter {β : Type} (l : List (String × β)) (q : String × β → Bool) (id : String)
    (hnd : (l.map Prod.fst).Nodup) :
    ((l.filter q).map Prod.fst).count id =
      if l.any (fun p => p.1 == id && q p) then 1 else 0 := by
  induction l with
  | nil => simp
  | cons p l ih =>
    simp only [List.map_cons, List.nodup_cons] at hnd
    obtain ⟨hp, hl⟩ := hnd
    have hrest := ih hl
    by_cases hq : q p
    · rw [List.filter_cons_of_pos hq, List.map_cons]
      by_cases hid : p.1 = id
      · subst hid
        have hzero : ((l.filter q).map Prod.fst).count p.1 = 0 :=
          List.count_eq_zero.mpr fun hmem =>
            hp (((List.filter_sublist (p := q) l).map Prod.fst).mem hmem)
        have hany : (l.any fun r => r.1 == p.1 && q r) = false := by
          refine List.any_eq_false.mpr fun r hr hcon => ?_
          exact hp ((eq_of_beq ((Bool.and_eq_true _ _).mp hcon).1) ▸
            List.mem_map_of_mem Prod.fst hr)
        rw [List.count_cons_self, hzero, List.any_cons, hany]
        simp [hq]
      · rw [List.count_cons_of_ne (fun h => hid h.symm), hrest, List.any_cons]
        have hbeq : (p.1 == id) = false := beq_eq_false_iff_ne.mpr hid
        rw [hbeq, Bool.false_and, Bool.false_or]
    · have hqf : q p = false := by simpa using hq
      rw [List.filter_cons_of_neg (by simp [hqf]), hrest, List.any_cons, hqf,
        Bool.and_false, Bool.false_or]

/-- Counting an entry inside one segment of `fileUncovered`: the segment of
type `T` contains `⟨file, t, id⟩` once when `t = T` and some pair of the
association list passes the zero-count filter at key `id`. -/
lemma count_segment {β : Type} (file T t id : String) (l : List (String × β))
    (q : String × β → Bool) (hnd : (l.map Prod.fst).Nodup) :
    ((l.filter q).map fun p => (⟨file, T, p.1⟩ : UncoveredEntry)).count ⟨file, t, id⟩ =
      if t = T ∧ l.any (fun p => p.1 == id && q p) then 1 else 0 := by
  by_cases ht : t = T
  · subst ht
    have hmap : ((l.filter q).map fun p => (⟨file, t, p.1⟩ : UncoveredEntry)) =
        ((l.filter q).map Prod.fst).map fun k => (⟨file, t, k⟩ : UncoveredEntry) := by
      simp [List.map_map]
    rw [hmap,
      List.count_map_of_injective ((l.filter q).map Prod.fst) _ (mkEntry_injective file t) id,
      count_key_filter l q id hnd]
    simp only [eq_self_iff_true, true_and]
  · have hzero : (⟨file, t, id⟩ : UncoveredEntry) ∉
        ((l.filter q).map fun p => (⟨file, T, p.1⟩ : UncoveredEntry)) := by
      intro hmem
      obtain ⟨p, _, hpe⟩ := List.mem_map.mp hmem
      exact ht (congrArg UncoveredEntry.type hpe).symm
    rw [List.count_eq_zero.mpr hzero, if_neg (fun hc => ht hc.1)]

/-- Every entry produced for a file carries that file's name. -/
lemma file_of_mem_fileUncovered {file : String} {d : FileCov} {e : UncoveredEntry}
    (h : e ∈ fileUncovered file d) : e.file = file := by
  simp only [fileUncovered, List.mem_append, List.mem_map] at h
  rcases h with (⟨p, _, hpe⟩ | ⟨p, _, hpe⟩) | ⟨p, _, hpe⟩ <;>
    exact (congrArg UncoveredEntry.file hpe).symm

/-- Every entry of the uncovered list names a file key of the coverage map. -/
lemma file_of_mem_uncoveredList {cov : CovMap} {e : UncoveredEntry}
    (h : e ∈ uncoveredList cov) : e.file ∈ cov.map Prod.fst := by
  simp only [uncoveredList, List.mem_flatMap] at h
  obtain ⟨fd, hfd, he⟩ := h
  exact (file_of_mem_fileUncovered he) ▸ List.mem_map_of_mem Prod.fst hfd

/-- A file absent from the coverage map classifies every entry as covered. -/
lemma specUncovered_of_not_mem {cov : CovMap} {e : UncoveredEntry}
    (h : e.file ∉ cov.map Prod.fst) : specUncovered cov e = false := by
  have hz : ∀ {γ : Type} (sel : FileCov → List (String × γ)) (q : String × γ → Bool),
      (cov.any fun fd => fd.1 == e.file && ((sel fd.2).any fun p => p.1 == e.id && q p)) =
        false := by
    intro γ sel q
    refine List.any_eq_false.mpr ?_
    intro fd hfd hcon
    have h1 : fd.1 = e.file := eq_of_beq ((Bool.and_eq_true _ _).mp hcon).1
    exact h (h1 ▸ List.mem_map_of_mem Prod.fst hfd)
  simp only [specUncovered, zeroStmt, zeroFn, zeroBranch]
  split
  · exact hz (fun d => d.s) (fun p => p.2 == 0)
  split
  · exact hz (fun d => d.b) (fun p => p.2.any fun c => c == 0)
  split
  · exact hz (fun d => d.f) (fun p => p.2 == 0)
  rfl

/-- Count of an entry among the contributions of its own file. -/
lemma count_fileUncovered (file : String) (d : FileCov) (t id : String)
    (hs : (d.s.map Prod.fst).Nodup) (hb : (d.b.map Prod.fst).Nodup)
    (hf : (d.f.map Prod.fst).Nodup) :
    (fileUncovered file d).count ⟨file, t, id⟩ =
      if specUncovered [(file, d)] ⟨file, t, id⟩ then 1 else 0 := by
  have hself : (file == file) = true := beq_self_eq_true file
  simp only [fileUncovered, List.count_append,
    count_segment file "statement" t id d.s _ hs,
    count_segment file "branch" t id d.b _ hb,
    count_segment file "function" t id d.f _ hf,
    specUncovered, zeroStmt, zeroBranch, zeroFn, List.any_cons, List.any_nil, hself,
    Bool.true_and, Bool.or_false]
  by_cases h1 : t = "statement"
  · subst h1
    simp
  · by_cases h2 : t = "branch"
    · subst h2
      simp
      exact if_congr (and_iff_right rfl) rfl rfl
    · by_cases h3 : t = "function"
      · subst h3
        simp
      · simp [h1, h2, h3]

/-- C1. For every coverage map whose file keys, and per-file statement,
branch and function ids, are duplicate-free (as JSON object keys are), the
`uncovered` list built by `analyzeCoverage` counts each triple
`⟨file, type, id⟩` exactly once when the triple has a zero hit count of its
kind (for branches: a hit-count array with some zero element), and zero
times otherwise. -/
theorem analyzeCoverage_uncovered_exact (cov : CovMap)
    (hfiles : (cov.map Prod.fst).Nodup)
    (hkeys : ∀ fd ∈ cov, ((fd : String × FileCov).2.s.map Prod.fst).Nodup ∧
      (fd.2.b.map Prod.fst).Nodup ∧ (fd.2.f.map Prod.fst).Nodup)
    (e : UncoveredEntry) :
    (uncoveredList cov).count e = if specUncovered cov e then 1 else 0 := by
  induction cov with
  | nil =>
    simp only [uncoveredList, List.flatMap_nil, List.count_nil, specUncovered,
      zeroStmt, zeroFn, zeroBranch, List.any_nil]
    split <;> first | rfl | (split <;> first | rfl | (split <;> rfl))
  | cons fd cov ih =>
    simp only [List.map_cons, List.nodup_cons] at hfiles
    obtain ⟨hhead, htail⟩ := hfiles
    obtain ⟨hds, hdb, hdf⟩ := hkeys fd (List.mem_cons_self fd cov)
    have hktail : ∀ gd ∈ cov, ((gd : String × FileCov).2.s.map Prod.fst).Nodup ∧
        (gd.2.b.map Prod.fst).Nodup ∧ (gd.2.f.map Prod.fst).Nodup :=
      fun gd hgd => hkeys gd (List.mem_cons_of_mem fd hgd)
    have hsplit : uncoveredList (fd :: cov) = fileUncovered fd.1 fd.2 ++ uncoveredList cov := by
      simp [uncoveredList]
    by_cases he : e.file = fd.1
    · have htailzero : (uncoveredList cov).count e = 0 := by
        refine List.count_eq_zero.mpr ?_
        intro hmem
        exact hhead (he ▸ file_of_mem_uncoveredList hmem)
      have hspec : specUncovered (fd :: cov) e = specUncovered [fd] e := by
        have hnot : e.file ∉ cov.map Prod.fst := fun hmem => hhead (he ▸ hmem)
        have hz : ∀ {γ : Type} (sel : FileCov → List (String × γ)) (q : String × γ → Bool),
            (cov.any fun gd => gd.1 == e.file && ((sel gd.2).any fun p => p.1 == e.id && q p)) =
              false := by
          intro γ sel q
          refine List.any_eq_false.mpr ?_
          intro gd hgd hcon
          have h1 : gd.1 = e.file := eq_of_beq ((Bool.and_eq_true _ _).mp hcon).1
          exact hnot (h1 ▸ List.mem_map_of_mem Prod.fst hgd)
        simp only [specUncovered, zeroStmt, zeroFn, zeroBranch, List.any_cons, List.any_nil,
          hz (fun d => d.s) (fun p => p.2 == 0),
          hz (fun d => d.f) (fun p => p.2 == 0),
          hz (fun d => d.b) (fun p => p.2.any fun c => c == 0)]
      obtain ⟨f0, t0, id0⟩ := e
      have hfe : f0 = fd.1 := he
      subst hfe
      rw [hsplit, List.count_append, htailzero, Nat.add_zero, hspec]
      have := count_fileUncovered fd.1 fd.2 t0 id0 hds hdb hdf
      simpa using this
    · have hheadzero : (fileUncovered fd.1 fd.2).count e = 0 := by
        refine List.count_eq_zero.mpr ?_
        intro hmem
        exact he (file_of_mem_fileUncovered hmem)
      have hbe : (fd.1 == e.file) = false := beq_eq_false_iff_ne.mpr fun h => he h.symm
      have hspec : specUncovered (fd :: cov) e = specUncovered cov e := by
        simp only [specUncovered, zeroStmt, zeroFn, zeroBranch, List.any_cons, hbe,
          Bool.false_and, Bool.false_or]
      rw [hsplit, List.count_append, hheadzero, Nat.zero_add, hspec]
      exact ih htail hktail

/-- Witness for C1: a concrete two-file coverage map; the uncovered
statement, the uncovered branch and a fully covered function are counted
as the claim states. -/
theorem analyzeCoverage_uncovered_exact_witness :
    (uncoveredList [("src/A.tsx", ⟨[("0", 0), ("1", 2)], [("0", [1, 0])], [("0", 1)]⟩),
        ("src/B.ts", ⟨[("0", 3)], [], [("0", 0)]⟩)]).count ⟨"src/A.tsx", "statement", "0"⟩ =
      if specUncovered [("src/A.tsx", ⟨[("0", 0), ("1", 2)], [("0", [1, 0])], [("0", 1)]⟩),
          ("src/B.ts", ⟨[("0", 3)], [], [("0", 0)]⟩)] ⟨"src/A.tsx", "statement", "0"⟩
        then 1 else 0 :=
  analyzeCoverage_uncovered_exact _ (by decide) (by decide) _

/-! ## Path and file-system model

Paths are modelled as lists of components (the pieces between `/`);
an input path carries an `isAbs` flag (`path.isAbsolute`).  The Node
`path` library functions used by the tools are modelled on component
lists: `path.join` appends components, `path.dirname` drops the last
component, `path.relative` computes `..` steps after the common prefix,
and `path.extname` / `path.basename` operate on the last component.
A file system is a function from absolute-path component lists to an
optional file content. -/

/-- An input file path: `path.isAbsolute` flag plus components. -/
structure InPath where
  isAbs : Bool
  comps : List String
deriving DecidableEq, Repr

/-- File system: maps a path (component list) to its content, if the file
exists (`fs.pathExists` / `fs.existsSync`). -/
def FSys : Type := List String → Option String

/-- `fs.writeFile`: update the file system at one path. -/
def fsWrite (fs : FSys) (p : List String) (content : String) : FSys :=
  fun q => if q = p then some content else fs q

/-- `path.isAbsolute(filePath) ? filePath : path.join(projectRoot, filePath)`. -/
def resolveAbs (projectRoot : List String) (p : InPath) : List String :=
  if p.isAbs then p.comps else projectRoot ++ p.comps

/-- Kernel-computable model of `String.endsWith` on character lists. -/
def strEndsWith (s t : String) : Bool := t.toList.isSuffixOf s.toList

/-- Kernel-computable model of `String.startsWith` on character lists. -/
def strStartsWith (s t : String) : Bool := t.toList.isPrefixOf s.toList

/-- Model of Node `path.extname` on a file name: the suffix starting at the
last dot, empty when there is no dot past the first character. -/
def extOfChars : List Char → Option (List Char)
  | [] => none
  | c :: cs =>
    match extOfChars cs with
    | some e => some e
    | none => if c = Char.ofNat 46 then some (c :: cs) else none

/-- `path.extname` of the last path component. -/
def extname (p : List String) : String :=
  match p.getLast? with
  | none => ""
  | some name =>
    match name.toList with
    | [] => ""
    | _ :: rest =>
      match extOfChars rest with
      | some e => String.mk e
      | none => ""

/-- `path.basename(absPath, ext)`: last component with the suffix `ext`
removed when present. -/
def basenameDropExt (p : List String) (ext : String) : String :=
  match p.getLast? with
  | none => ""
  | some name =>
    if ext ≠ "" ∧ strEndsWith name ext then
      String.mk (name.toList.take (name.length - ext.length))
    else name

/-- Model of Node `path.relative` on component lists: strip the common
prefix, then one `..` per remaining component of the origin. -/
def relComps : List String → List String → List String
  | [], t => t
  | a :: f, [] => (a :: f).map fun _ => ".."
  | a :: f, b :: t =>
    if a = b then relComps f t else ((a :: f).map fun _ => "..") ++ b :: t

/-- The extension allowlist of `generateTestsImpl`:
`['.tsx', '.jsx', '.js', '.ts']`. -/
def jsExtensions : List String := [".tsx", ".jsx", ".js", ".ts"]

/-- The render-test template written by `generateTestsImpl` (string
interpolations made explicit). -/
def testTemplate (componentName importPath : String) : String :=
  "import \x7b render \x7d from \x27@testing-library/react\x27;\n" ++
    "import " ++ componentName ++ " from \x27" ++
    (if importPath.startsWith "." then importPath else "./" ++ importPath) ++ "\x27;\n\n" ++
    "test(\x27renders " ++ componentName ++ " without crashing\x27, () => \x7b\n" ++
    "  const \x7b container \x7d = render(<" ++ componentName ++ " />);\n" ++
    "  expect(container).toBeTruthy();\n\x7d);\n"

/-- The test-file path `generateTestsImpl` computes for one input:
`projectRoot/__tests__/<dirname of relative>/<componentName>.test<ext>`. -/
def testFilePath (projectRoot : List String) (p : InPath) : List String :=
  let absPath := resolveAbs projectRoot p
  let ext := extname absPath
  let relative := relComps projectRoot absPath
  let componentName := basenameDropExt absPath ext
  projectRoot ++ ["__tests__"] ++ relative.dropLast ++ [componentName ++ ".test" ++ ext]

/-- One iteration of the `uncoveredFiles.map` callback of
`generateTestsImpl` (`src/tools/generateTests.ts`): skip non-JS/TS
extensions, skip already existing test files, otherwise write the template
and report the test file path. -/
def processOne (projectRoot : List String) (fs : FSys) (p : InPath) :
    FSys × Option (List String) :=
  let absPath := resolveAbs projectRoot p
  let ext := extname absPath
  if ext ∈ jsExtensions then
    let relative := relComps projectRoot absPath
    let componentName := basenameDropExt absPath ext
    let testDir := projectRoot ++ ["__tests__"] ++ relative.dropLast
    let testFile := testDir ++ [componentName ++ ".test" ++ ext]
    if (fs testFile).isSome then (fs, none)
    else
      let importPath := String.intercalate "/" (relComps testDir absPath)
      (fsWrite fs testFile (testTemplate componentName importPath), some testFile)
  else (fs, none)

/-- `generateTestsImpl projectRoot uncoveredFiles`, run sequentially over
the inputs; returns the final file system and the generated test files
(`results.filter(Boolean)`, in input order). -/
def generateTestsImpl (projectRoot : List String) (fs : FSys) :
    List InPath → FSys × List (List String)
  | [] => (fs, [])
  | p :: rest =>
    match processOne projectRoot fs p with
    | (fs1, r) =>
      match generateTestsImpl projectRoot fs1 rest with
      | (fs2, out) => (fs2, (match r with | some t => [t] | none => []) ++ out)

/-- `processOne` never changes a file that already exists: any path
with content before the step has the same content after it, and when the
step reports a generated file, that file was absent before. -/
lemma processOne_preserves (projectRoot : List String) (fs : FSys) (p : InPath)
    (q : List String) (c : String) (hq : fs q = some c) :
    (processOne projectRoot fs p).1 q = some c ∧
      ∀ t, (processOne projectRoot fs p).2 = some t → t ≠ q := by
  unfold processOne
  by_cases hext : extname (resolveAbs projectRoot p) ∈ jsExtensions
  · simp only [hext, if_pos]
    by_cases hex : (fs (projectRoot ++ ["__tests__"] ++
        (relComps projectRoot (resolveAbs projectRoot p)).dropLast ++
        [basenameDropExt (resolveAbs projectRoot p) (extname (resolveAbs projectRoot p)) ++
          ".test" ++ extname (resolveAbs projectRoot p)])).isSome
    · simp only [hex, if_pos, if_true]
      exact ⟨hq, by intro t ht; cases ht⟩
    · simp only [hex, if_neg, Bool.false_eq_true, if_false]
      constructor
      · show fsWrite fs _ _ q = some c
        unfold fsWrite
        split
        · rename_i hqe
          subst hqe
          rw [hq] at hex
          simp at hex
        · exact hq
      · intro t ht hteq
        cases ht
        subst hteq
        rw [hq] at hex
        simp at hex
  · simp only [hext, if_neg, if_false]
    exact ⟨hq, by intro t ht; cases ht⟩

/-- C2. A test file that exists before a `generateTests` run keeps its
content, and its path is not among the returned generated test files; in
particular, for an input file whose computed target test path already
exists, that path is neither overwritten nor reported. -/
theorem generateTests_no_overwrite (projectRoot : List String) (files : List InPath)
    (fs : FSys) (q : List String) (c : String) (hq : fs q = some c) :
    (generateTestsImpl projectRoot fs files).1 q = some c ∧
      q ∉ (generateTestsImpl projectRoot fs files).2 := by
  induction files generalizing fs with
  | nil => exact ⟨hq, by simp [generateTestsImpl]⟩
  | cons p rest ih =>
    obtain ⟨hpres, hfresh⟩ := processOne_preserves projectRoot fs p q c hq
    obtain ⟨ih1, ih2⟩ := ih (processOne projectRoot fs p).1 hpres
    unfold generateTestsImpl
    constructor
    · exact ih1
    · intro hmem
      rcases List.mem_append.mp hmem with hl | hr
      · cases hrp : (processOne projectRoot fs p).2 with
        | none => rw [hrp] at hl; simp at hl
        | some t =>
          rw [hrp] at hl
          simp only [List.mem_singleton] at hl
          exact hfresh t hrp hl.symm
      · exact ih2 hr

/-- Witness for C2: with a pre-existing test file for `src/App.tsx`, the
run leaves its content in place and does not report it. -/
theorem generateTests_no_overwrite_witness :
    ((fun q => if q = ["repo", "__tests__", "src", "App.test.tsx"]
        then some "existing" else none) : FSys)
          ["repo", "__tests__", "src", "App.test.tsx"] = some "existing" ∧
    ((generateTestsImpl ["repo"]
        (fun q => if q = ["repo", "__tests__", "src", "App.test.tsx"]
          then some "existing" else none)
        [⟨false, ["src", "App.tsx"]⟩]).1 ["repo", "__tests__", "src", "App.test.tsx"] =
          some "existing" ∧
      ["repo", "__tests__", "src", "App.test.tsx"] ∉
        (generateTestsImpl ["repo"]
          (fun q => if q = ["repo", "__tests__", "src", "App.test.tsx"]
            then some "existing" else none)
          [⟨false, ["src", "App.tsx"]⟩]).2) :=
  ⟨by decide, generateTests_no_overwrite ["repo"] [⟨false, ["src", "App.tsx"]⟩] _ _ "existing"
    (by decide)⟩

/-- C10. An input path whose extension is not `.tsx`, `.jsx`, `.js` or
`.ts` is skipped entirely: removing it from the input list changes neither
the resulting file system nor the returned list of generated test files. -/
theorem generateTests_skips_non_js (projectRoot : List String) (fs : FSys)
    (xs ys : List InPath) (p : InPath)
    (h : extname (resolveAbs projectRoot p) ∉ jsExtensions) :
    generateTestsImpl projectRoot fs (xs ++ p :: ys) =
      generateTestsImpl projectRoot fs (xs ++ ys) := by
  induction xs generalizing fs with
  | nil =>
    have hstep : processOne projectRoot fs p = (fs, none) := by
      unfold processOne
      simp only [h, if_neg, if_false]
    simp only [List.nil_append, generateTestsImpl, hstep]
  | cons x xs ih =>
    simp only [List.cons_append, generateTestsImpl, List.append_eq, ih]

/-- Witness for C10: a `.css` input produces no write and no entry. -/
theorem generateTests_skips_non_js_witness :
    extname (resolveAbs ["repo"] ⟨false, ["src", "style.css"]⟩) ∉ jsExtensions ∧
      generateTestsImpl ["repo"] (fun _ => none)
          ([⟨false, ["src", "App.tsx"]⟩] ++ ⟨false, ["src", "style.css"]⟩ :: []) =
        generateTestsImpl ["repo"] (fun _ => none) ([⟨false, ["src", "App.tsx"]⟩] ++ []) :=
  ⟨by decide, generateTests_skips_non_js ["repo"] (fun _ => none)
    [⟨false, ["src", "App.tsx"]⟩] [] ⟨false, ["src", "style.css"]⟩ (by decide)⟩

/-! ## setupVitest (`setupVitest` / `setupVitestImpl`)

Writes `vitest.config.ts` and `src/setupTests.ts` when absent, then shells
out to the package manager (the subprocess does not touch these files and
is not modelled). -/

/-- The default `vitest.config.ts` content written by `setupVitest`. -/
def defaultVitestConfig : String :=
  "import \x7b defineConfig \x7d from \x27vitest/config\x27;\n" ++
    "import react from \x27@vitejs/plugin-react\x27;\n\n" ++
    "export default defineConfig(\x7b\n  plugins: [react()],\n  test: \x7b\n" ++
    "    globals: true,\n    environment: \x27jsdom\x27,\n" ++
    "    setupFiles: \x27./src/setupTests.ts\x27,\n    coverage: \x7b\n" ++
    "      provider: \x27c8\x27,\n      reporter: [\x27text\x27,\x27json\x27,\x27html\x27],\n" ++
    "      all: true,\n      statements: 100,\n      branches: 100,\n" ++
    "      functions: 100,\n      lines: 100\n    \x7d\n  \x7d\n\x7d);"

/-- The default `src/setupTests.ts` content. -/
def defaultSetupTests : String := "import \x27@testing-library/jest-dom\x27;\n"

/-- The file-writing phase of `setupVitest projectRoot`: create
`vitest.config.ts` if missing, then `src/setupTests.ts` if missing. -/
def setupVitestFiles (projectRoot : List String) (fs : FSys) : FSys :=
  let vitestConfigPath := projectRoot ++ ["vitest.config.ts"]
  let fs1 := if (fs vitestConfigPath).isSome then fs
    else fsWrite fs vitestConfigPath defaultVitestConfig
  let setupPath := projectRoot ++ ["src", "setupTests.ts"]
  if (fs1 setupPath).isSome then fs1 else fsWrite fs1 setupPath defaultSetupTests

/-- The two paths written by `setupVitest` differ. -/
lemma setupPaths_ne (projectRoot : List String) :
    projectRoot ++ ["vitest.config.ts"] ≠ projectRoot ++ ["src", "setupTests.ts"] := by
  intro h
  have := List.append_cancel_left h
  simp at this

/-- C5. `setupVitest` creates the default files only when absent: an
existing `vitest.config.ts` or `src/setupTests.ts` keeps its content, and
an absent one exists with the default content after the file-writing
phase. -/
theorem setupVitest_files_frame (projectRoot : List String) (fs : FSys) :
    (∀ c, fs (projectRoot ++ ["vitest.config.ts"]) = some c →
      setupVitestFiles projectRoot fs (projectRoot ++ ["vitest.config.ts"]) = some c) ∧
    (∀ c, fs (projectRoot ++ ["src", "setupTests.ts"]) = some c →
      setupVitestFiles projectRoot fs (projectRoot ++ ["src", "setupTests.ts"]) = some c) ∧
    (fs (projectRoot ++ ["vitest.config.ts"]) = none →
      setupVitestFiles projectRoot fs (projectRoot ++ ["vitest.config.ts"]) =
        some defaultVitestConfig) ∧
    (fs (projectRoot ++ ["src", "setupTests.ts"]) = none →
      setupVitestFiles projectRoot fs (projectRoot ++ ["src", "setupTests.ts"]) =
        some defaultSetupTests) := by
  have hne := setupPaths_ne projectRoot
  unfold setupVitestFiles
  by_cases h1 : (fs (projectRoot ++ ["vitest.config.ts"])).isSome
  · simp only [h1, if_true]
    by_cases h2 : (fs (projectRoot ++ ["src", "setupTests.ts"])).isSome
    · simp only [h2, if_true]
      refine ⟨fun c hc => hc, fun c hc => hc, fun hn => ?_, fun hn => ?_⟩
      · simp [hn] at h1
      · simp [hn] at h2
    · simp only [h2, Bool.false_eq_true, if_false]
      refine ⟨fun c hc => ?_, fun c hc => ?_, fun hn => ?_, fun hn => ?_⟩
      · unfold fsWrite
        rw [if_neg hne]
        exact hc
      · simp [hc] at h2
      · simp [hn] at h1
      · unfold fsWrite
        rw [if_pos rfl]
  · simp only [h1, Bool.false_eq_true, if_false]
    have hw2 : fsWrite fs (projectRoot ++ ["vitest.config.ts"]) defaultVitestConfig
        (projectRoot ++ ["src", "setupTests.ts"]) =
          fs (projectRoot ++ ["src", "setupTests.ts"]) := by
      unfold fsWrite
      rw [if_neg (fun h => hne h.symm)]
    by_cases h2 : (fs (projectRoot ++ ["src", "setupTests.ts"])).isSome
    · rw [hw2]
      simp only [h2, if_true]
      refine ⟨fun c hc => ?_, fun c hc => hc ▸ hw2, fun hn => ?_, fun hn => ?_⟩
      · simp [hc] at h1
      · unfold fsWrite
        rw [if_pos rfl]
      · simp [hn] at h2
    · rw [hw2]
      simp only [h2, Bool.false_eq_true, if_false]
      refine ⟨fun c hc => ?_, fun c hc => ?_, fun hn => ?_, fun hn => ?_⟩
      · simp [hc] at h1
      · simp [hc] at h2
      · unfold fsWrite
        rw [if_neg (fun h => hne h), if_pos rfl]
      · unfold fsWrite
        rw [if_pos rfl]

/-- Witness for C5: with an existing config and an absent setup file, the
config keeps its content and the setup file gets the default content. -/
theorem setupVitest_files_frame_witness :
    ((fun q => if q = ["app", "vitest.config.ts"] then some "my config" else none) : FSys)
        (["app"] ++ ["vitest.config.ts"]) = some "my config" ∧
    setupVitestFiles ["app"]
        (fun q => if q = ["app", "vitest.config.ts"] then some "my config" else none)
        (["app"] ++ ["vitest.config.ts"]) = some "my config" ∧
    setupVitestFiles ["app"]
        (fun q => if q = ["app", "vitest.config.ts"] then some "my config" else none)
        (["app"] ++ ["src", "setupTests.ts"]) = some defaultSetupTests :=
  ⟨by decide,
    (setupVitest_files_frame ["app"]
      (fun q => if q = ["app", "vitest.config.ts"] then some "my config" else none)).1
      "my config" (by decide),
    (setupVitest_files_frame ["app"]
      (fun q => if q = ["app", "vitest.config.ts"] then some "my config" else none)).2.2.2
      (by decide)⟩

/-! ## coverageDiff (`computeDiff`, `generateDiffSummary`)

`computeDiff` folds `Object.values(...).reduce((a, b) => a + (b as number), 0)`
over the `s` and `b` maps of each file.  Statement values are JSON numbers,
so their reduce is numeric addition.  Branch values are hit-count ARRAYS;
JavaScript `+` on a number and an array coerces both to strings and
concatenates, so the branch folds are embedded with JavaScript addition
semantics (`JSVal`).  -/

/-- A JavaScript value as produced by the `reduce` folds of `computeDiff`:
a number, a string, or NaN. -/
inductive JSVal where
  | num (n : Int)
  | str (s : String)
  | nan
deriving DecidableEq, Repr

/-- JavaScript number-to-string for the integer-valued counts occurring in
coverage artifacts. -/
def jsNumToString (n : Int) : String := toString n

/-- JavaScript `Array.prototype.toString`: elements joined with `,`. -/
def arrToString (l : List Int) : String :=
  String.intercalate "," (l.map jsNumToString)

/-- JavaScript ToString on a `JSVal`. -/
def jsToString : JSVal → String
  | .num n => jsNumToString n
  | .str s => s
  | .nan => "NaN"

/-- JavaScript `a + arr` for an array operand: both sides convert to
strings and concatenate. -/
def jsAddArr (a : JSVal) (arr : List Int) : JSVal :=
  .str (jsToString a ++ arrToString arr)

/-- The numeric value of an all-digit character list, if it is one. -/
def digitsVal (cs : List Char) : Option Nat :=
  cs.foldl (fun acc c => acc.bind fun n =>
    if c.isDigit then some (n * 10 + (c.toNat - 48)) else none) (some 0)

/-- JavaScript ToNumber on a `JSVal` (`none` = NaN): strings must be
decimal literals, the empty string is 0, anything else (for example a
string containing a comma) is NaN. -/
def jsToNumber : JSVal → Option Int
  | .num n => some n
  | .nan => none
  | .str s =>
    match s.toList with
    | [] => some 0
    | c :: cs =>
      if c = Char.ofNat 45 then
        match cs with
        | [] => none
        | _ => (digitsVal cs).map fun n => -(n : Int)
      else (digitsVal (c :: cs)).map fun n => (n : Int)

/-- JavaScript subtraction: ToNumber both sides, NaN-propagating. -/
def jsSub (a b : JSVal) : JSVal :=
  match jsToNumber a, jsToNumber b with
  | some x, some y => .num (x - y)
  | _, _ => .nan

/-- A file entry of the coverage artifact as `computeDiff` consumes it:
JSON-number statement counts, array-valued branch counts. -/
structure FileCovQ where
  s : List (String × Int)
  b : List (String × List Int)
deriving DecidableEq, Repr

/-- Coverage artifact keyed by file, for `computeDiff`. -/
abbrev CovMapQ := List (String × FileCovQ)

/-- `new Set([...Object.keys(base), ...Object.keys(current)])`: deduplicate
keeping first occurrences, with an explicit seen accumulator. -/
def setDedupGo (seen : List String) : List String → List String
  | [] => []
  | a :: l => if a ∈ seen then setDedupGo seen l else a :: setDedupGo (a :: seen) l

/-- The iteration order of the key set built by `computeDiff`. -/
def setDedup (l : List String) : List String := setDedupGo [] l

/-- `base[f]?.s ?? {}` — the statement map of file `f`, or empty. -/
def covS (m : CovMapQ) (f : String) : List (String × Int) :=
  match (m.find? fun p => p.1 == f).map Prod.snd with
  | some d => d.s
  | none => []

/-- `base[f]?.b ?? {}` — the branch map of file `f`, or empty. -/
def covB (m : CovMapQ) (f : String) : List (String × List Int) :=
  match (m.find? fun p => p.1 == f).map Prod.snd with
  | some d => d.b
  | none => []

/-- `Object.values(s).reduce((a, b) => a + (b as number), 0)` on the
number-valued statement map: numeric summation. -/
def stmtSum (l : List (String × Int)) : Int :=
  l.foldl (fun a p => a + p.2) 0

/-- `Object.values(b).reduce((a, b) => a + (b as number), 0)` on the
array-valued branch map, with JavaScript `+` semantics. -/
def branchSumJS (l : List (String × List Int)) : JSVal :=
  l.foldl (fun a p => jsAddArr a p.2) (.num 0)

/-- The per-file record built by `computeDiff`. -/
structure FileDiff where
  baseStatements : Int
  currentStatements : Int
  statementChange : Int
  baseBranches : JSVal
  currentBranches : JSVal
  branchChange : JSVal
deriving DecidableEq, Repr

/-- `computeDiff(base, current)` (`src/tools/coverageDiff.ts`). -/
def computeDiff (base current : CovMapQ) : List (String × FileDiff) :=
  (setDedup (base.map Prod.fst ++ current.map Prod.fst)).map fun f =>
    let baseCovered := stmtSum (covS base f)
    let curCovered := stmtSum (covS current f)
    let baseB := covB base f
    let curB := covB current f
    (f, { baseStatements := baseCovered
          currentStatements := curCovered
          statementChange := curCovered - baseCovered
          baseBranches := branchSumJS baseB
          currentBranches := branchSumJS curB
          branchChange := jsSub (branchSumJS curB) (branchSumJS baseB) })

/-- The summary record built by `generateDiffSummary`. -/
structure DiffSummary where
  totalFiles : Nat
  improvedFiles : Nat
  degradedFiles : Nat
  unchangedFiles : Int
  totalStatementChange : Int
deriving DecidableEq, Repr

/-- `generateDiffSummary(diff)` (`src/tools/coverageDiff.ts`). -/
def generateDiffSummary (diff : List (String × FileDiff)) : DiffSummary :=
  let totalFiles := diff.length
  let improvedFiles := (diff.filter fun p => 0 < p.2.statementChange).length
  let degradedFiles := (diff.filter fun p => p.2.statementChange < 0).length
  let totalStatementChange := diff.foldl (fun a p => a + p.2.statementChange) 0
  { totalFiles := totalFiles
    improvedFiles := improvedFiles
    degradedFiles := degradedFiles
    unchangedFiles := (totalFiles : Int) - improvedFiles - degradedFiles
    totalStatementChange := totalStatementChange }

/-- The arithmetic branch sum the claim describes: the sum of all branch
hit counts of the map. -/
def specBranchSum (l : List (String × List Int)) : Int :=
  (l.map fun p => p.2.sum).sum

/-- C4. Evaluation at the failing input: on a coverage entry whose branch
map is `{"0": [0, 1]}`, `computeDiff` produces `baseBranches` equal to the
string `"00,1"` (JavaScript `+` concatenates the array) and a NaN
`branchChange`, not the arithmetic branch sum `1` the claim describes, so
the branch aggregates of `computeDiff` are not sums of branch hit
counts. -/
theorem computeDiff_branch_sum_bug :
    computeDiff [("src/A.ts", ⟨[("0", 1)], [("0", [0, 1])]⟩)]
        [("src/A.ts", ⟨[("0", 1)], [("0", [0, 1])]⟩)] =
      [("src/A.ts",
        { baseStatements := 1
          currentStatements := 1
          statementChange := 0
          baseBranches := .str "00,1"
          currentBranches := .str "00,1"
          branchChange := .nan })] ∧
    specBranchSum [("0", [0, 1])] = 1 ∧
    JSVal.str "00,1" ≠ JSVal.num (specBranchSum [("0", [0, 1])]) := by
  refine ⟨by decide, by decide, by decide⟩

/-! ## profileTests

Reads the test-result artifact (`testResults[].assertionResults[]`),
flattens it, keeps the tests with positive duration, sorts them by
descending duration (`.sort((a, b) => (b.duration || 0) - (a.duration || 0))`,
embedded as a stable insertion sort by the same ordering), and derives the
slow-test statistics.  Durations are JSON numbers, embedded as rationals
because the average divides. -/

/-- One `assertionResults` entry of the test-result artifact. -/
structure TestRes where
  title : String
  fullName : String
  duration : Option ℚ
  status : String
deriving DecidableEq, Repr

/-- One `testResults` suite of the test-result artifact. -/
structure SuiteRes where
  name : String
  file : String
  assertionResults : List TestRes
deriving DecidableEq, Repr

/-- A flattened test record as built by `profileTests`
(`duration: test.duration || 0`). -/
structure ProfTest where
  title : String
  fullName : String
  duration : ℚ
  status : String
  suite : String
  file : String
deriving DecidableEq, Repr

/-- `allTests`: the flatMap over suites of their assertion results. -/
def allTests (suites : List SuiteRes) : List ProfTest :=
  suites.flatMap fun s => s.assertionResults.map fun t =>
    ⟨t.title, t.fullName, t.duration.getD 0, t.status, s.name, s.file⟩

/-- The descending-duration ordering used by the sort comparator
`(a, b) => (b.duration || 0) - (a.duration || 0)`. -/
def slowerEq (a b : ProfTest) : Prop := b.duration ≤ a.duration

instance : DecidableRel slowerEq := fun a b =>
  inferInstanceAs (Decidable (b.duration ≤ a.duration))

instance : IsTotal ProfTest slowerEq := ⟨fun a b => le_total b.duration a.duration⟩

instance : IsTrans ProfTest slowerEq := ⟨fun _ _ _ h1 h2 => le_trans h2 h1⟩

/-- `sortedTests`: tests with positive duration, sorted slowest first. -/
def sortedTests (suites : List SuiteRes) : List ProfTest :=
  List.insertionSort slowerEq ((allTests suites).filter fun t => decide (0 < t.duration))

/-- `totalTests = sortedTests.length`. -/
def totalTests (suites : List SuiteRes) : Nat := (sortedTests suites).length

/-- `avgDuration`: sum of the sorted durations over their count, `0` when
there are none. -/
def avgDuration (suites : List SuiteRes) : ℚ :=
  if 0 < totalTests suites then
    ((sortedTests suites).foldl (fun s t => s + t.duration) 0) / totalTests suites
  else 0

/-- `slowThreshold = Math.max(1000, avgDuration * 2)`. -/
def slowThreshold (suites : List SuiteRes) : ℚ :=
  max 1000 (avgDuration suites * 2)

/-- `slowTests`: the sorted tests strictly above the threshold. -/
def slowTests (suites : List SuiteRes) : List ProfTest :=
  (sortedTests suites).filter fun t => decide (slowThreshold suites < t.duration)

/-- `slowestTests: sortedTests.slice(0, 10)`. -/
def slowestTests (suites : List SuiteRes) : List ProfTest :=
  (sortedTests suites).take 10

/-- The average duration as the claim words it: sum over count. -/
def specAvg (l : List ℚ) : ℚ := l.sum / l.length

/-- Summing durations by fold equals summing the mapped list. -/
lemma foldl_duration_sum (l : List ProfTest) (a : ℚ) :
    l.foldl (fun s t => s + t.duration) a = a + (l.map fun t => t.duration).sum := by
  induction l generalizing a with
  | nil => simp
  | cons t l ih =>
    simp only [List.foldl_cons, List.map_cons, List.sum_cons, ih (a + t.duration)]
    ring

/-- C6 counterexample: on an artifact with eleven positive-duration tests,
`slowestTests` keeps only ten of them (`slice(0, 10)`), so it does not
contain exactly the tests with positive duration. -/
theorem profileTests_slowest_missing_test :
    ¬ (slowestTests [⟨"suite", "s.ts",
        [⟨"t1", "s t1", some 1, "passed"⟩, ⟨"t2", "s t2", some 2, "passed"⟩,
         ⟨"t3", "s t3", some 3, "passed"⟩, ⟨"t4", "s t4", some 4, "passed"⟩,
         ⟨"t5", "s t5", some 5, "passed"⟩, ⟨"t6", "s t6", some 6, "passed"⟩,
         ⟨"t7", "s t7", some 7, "passed"⟩, ⟨"t8", "s t8", some 8, "passed"⟩,
         ⟨"t9", "s t9", some 9, "passed"⟩, ⟨"t10", "s t10", some 10, "passed"⟩,
         ⟨"t11", "s t11", some 11, "passed"⟩]⟩]).Perm
      ((allTests [⟨"suite", "s.ts",
        [⟨"t1", "s t1", some 1, "passed"⟩, ⟨"t2", "s t2", some 2, "passed"⟩,
         ⟨"t3", "s t3", some 3, "passed"⟩, ⟨"t4", "s t4", some 4, "passed"⟩,
         ⟨"t5", "s t5", some 5, "passed"⟩, ⟨"t6", "s t6", some 6, "passed"⟩,
         ⟨"t7", "s t7", some 7, "passed"⟩, ⟨"t8", "s t8", some 8, "passed"⟩,
         ⟨"t9", "s t9", some 9, "passed"⟩, ⟨"t10", "s t10", some 10, "passed"⟩,
         ⟨"t11", "s t11", some 11, "passed"⟩]⟩]).filter fun t => decide (0 < t.duration)) := by
  decide

/-- C6 as amended. For every test-result artifact: `slowestTests` is the
first ten (at most) entries of `sortedTests`; `sortedTests` is sorted by
non-increasing duration and is a permutation of the tests with positive
duration; the slow threshold is `max 1000 (2 * average duration of those
tests)`; and `slowTests` is (as a multiset) exactly the tests whose
duration exceeds that threshold. -/
theorem profileTests_amended (suites : List SuiteRes) :
    slowestTests suites = (sortedTests suites).take 10 ∧
    (sortedTests suites).Sorted slowerEq ∧
    (sortedTests suites).Perm ((allTests suites).filter fun t => decide (0 < t.duration)) ∧
    slowThreshold suites =
      max 1000 (2 * specAvg
        (((allTests suites).filter fun t => decide (0 < t.duration)).map fun t => t.duration)) ∧
    (slowTests suites).Perm
      ((allTests suites).filter fun t => decide (slowThreshold suites < t.duration)) := by
  have hperm : (sortedTests suites).Perm
      ((allTests suites).filter fun t => decide (0 < t.duration)) :=
    List.perm_insertionSort slowerEq _
  refine ⟨rfl, List.sorted_insertionSort slowerEq _, hperm, ?_, ?_⟩
  · have hsum : ((sortedTests suites).map fun t => t.duration).sum =
        ((((allTests suites).filter fun t => decide (0 < t.duration)).map
          fun t => t.duration)).sum :=
      (hperm.map fun t => t.duration).sum_eq
    have hlen : (sortedTests suites).length =
        ((allTests suites).filter fun t => decide (0 < t.duration)).length :=
      hperm.length_eq
    unfold slowThreshold avgDuration specAvg totalTests
    by_cases hn : 0 < (sortedTests suites).length
    · rw [if_pos hn, foldl_duration_sum, zero_add, hsum, hlen]
      rw [List.length_map]
      ring_nf
    · rw [if_neg hn]
      have h0 : (sortedTests suites).length = 0 := Nat.eq_zero_of_not_pos hn
      rw [hlen] at h0
      rw [List.length_eq_zero.mp h0]
      norm_num [specAvg]
  · have hsub : (slowTests suites).Perm
        (((allTests suites).filter fun t => decide (0 < t.duration)).filter
          fun t => decide (slowThreshold suites < t.duration)) := by
      have h := List.Perm.filter (fun t => decide (slowThreshold suites < t.duration)) hperm
      simpa [slowTests] using h
    have hff : (((allTests suites).filter fun t => decide (0 < t.duration)).filter
        fun t => decide (slowThreshold suites < t.duration)) =
          (allTests suites).filter fun t => decide (slowThreshold suites < t.duration) := by
      rw [List.filter_filter]
      refine List.filter_congr fun t _ => ?_
      by_cases ht : slowThreshold suites < t.duration
      · have hpos : (0 : ℚ) < t.duration :=
          lt_of_lt_of_le (by norm_num) (le_trans (le_max_left 1000 _) (le_of_lt ht))
        simp [ht, hpos]
      · simp [ht]
    exact hff ▸ hsub

/-! ## Plugin loader (`src/plugins/loader.ts`)

`loadPlugins` reads the directory listing, skips entries unless they end
in `.ts`, are not `index.ts` and do not start with `.`, dynamically
imports each remaining file and, when the default export has a `router`
function, calls it with the app; import or registration errors are caught
per file and the loop continues.  A directory entry is embedded as its
name plus the outcome of importing it; the observable effect is the list
of file names whose router function was invoked, in order. -/

/-- Outcome of `await import(fullPath)` for one plugin file. -/
inductive ModOutcome where
  | loadFail
  | noRouter
  | router (throws : Bool)
deriving DecidableEq, Repr

/-- A directory entry of the plugins directory. -/
structure PluginFile where
  name : String
  mod : ModOutcome
deriving DecidableEq, Repr

/-- The name filter of the loader loop:
`!file.endsWith('.ts') || file === 'index.ts' || file.startsWith('.')`
continues, so a file is considered exactly when this holds. -/
def consideredName (n : String) : Bool :=
  strEndsWith n ".ts" && !(n == "index.ts") && !(strStartsWith n ".")

/-- Whether the imported module's default export has a `router` function. -/
def hasRouter : ModOutcome → Bool
  | .router _ => true
  | _ => false

/-- `loadPlugins`: the file names whose `router` registration function is
invoked with the app, in directory order.  A throwing import
(`loadFail`) or a throwing router is caught and the loop continues; a
throwing router is still invoked. -/
def loadPlugins : List PluginFile → List String
  | [] => []
  | f :: rest =>
    if consideredName f.name then
      match f.mod with
      | .router _ => f.name :: loadPlugins rest
      | _ => loadPlugins rest
    else loadPlugins rest

/-- `loadPlugins` is the name projection of the name-and-router filter. -/
lemma loadPlugins_eq_filter_map (files : List PluginFile) :
    loadPlugins files =
      (files.filter fun f => consideredName f.name && hasRouter f.mod).map fun f => f.name := by
  induction files with
  | nil => rfl
  | cons g rest ih =>
    by_cases hcn : consideredName g.name
    · cases hm : g.mod <;>
        simp [loadPlugins, hcn, hm, hasRouter, List.filter_cons, ih]
    · have hcn2 : consideredName g.name = false := by simpa using hcn
      simp [loadPlugins, hcn2, List.filter_cons, ih]

/-- C7 counterexample: the plugins directory entry `extra.js` carries a
default export with a `router` function, yet `loadPlugins` never invokes
it — only `.ts` files are loaded, refuting the claim for every file. -/
theorem loadPlugins_skips_non_ts_file :
    ¬ ∀ f ∈ [(⟨"extra.js", ModOutcome.router false⟩ : PluginFile)],
        hasRouter f.mod → f.name ∈ loadPlugins [⟨"extra.js", ModOutcome.router false⟩] := by
  decide

/-- C7 as amended. For files ending in `.ts`, other than `index.ts` and
dot-files (and only those), `loadPlugins` invokes the module's `router`
registration function exactly when the loaded default export has one
(given duplicate-free directory names); and the loader processes each
entry independently, so one file's load or registration failure never
prevents the remaining files from being loaded and registered. -/
theorem loadPlugins_considered_iff :
    (∀ (files : List PluginFile), (files.map fun f => f.name).Nodup →
      ∀ f ∈ files,
        (f.name ∈ loadPlugins files ↔ consideredName f.name ∧ hasRouter f.mod)) ∧
    (∀ (xs ys : List PluginFile) (f : PluginFile),
      loadPlugins (xs ++ f :: ys) = loadPlugins xs ++ loadPlugins [f] ++ loadPlugins ys) := by
  constructor
  · intro files hnd f hf
    rw [loadPlugins_eq_filter_map]
    constructor
    · intro hmem
      obtain ⟨g, hg, hgn⟩ := List.mem_map.mp hmem
      obtain ⟨hgmem, hgq⟩ := List.mem_filter.mp hg
      have hgf : g = f := List.inj_on_of_nodup_map hnd hgmem hf hgn
      subst hgf
      simpa using hgq
    · intro ⟨hc, hr⟩
      exact List.mem_map.mpr ⟨f, List.mem_filter.mpr ⟨hf, by simp [hc, hr]⟩, rfl⟩
  · intro xs ys f
    simp only [loadPlugins_eq_filter_map, List.filter_append, List.filter_cons, List.map_append]
    split <;> simp

/-- Witness for C7 (amended): in a directory with a routered tool file, the
bare `index.ts` and a readme, the tool file's router is invoked and the
loader also registers files after a failing one. -/
theorem loadPlugins_considered_iff_witness :
    ("coverageDiff.ts" ∈ loadPlugins
        [⟨"coverageDiff.ts", ModOutcome.router false⟩, ⟨"index.ts", ModOutcome.router false⟩,
          ⟨"README.md", ModOutcome.noRouter⟩] ↔
      consideredName "coverageDiff.ts" ∧ hasRouter (ModOutcome.router false)) ∧
    loadPlugins ([⟨"broken.ts", ModOutcome.loadFail⟩] ++
        (⟨"generateTests.ts", ModOutcome.router false⟩ : PluginFile) :: []) =
      loadPlugins [⟨"broken.ts", ModOutcome.loadFail⟩] ++
        loadPlugins [⟨"generateTests.ts", ModOutcome.router false⟩] ++ loadPlugins [] :=
  ⟨loadPlugins_considered_iff.1
      [⟨"coverageDiff.ts", ModOutcome.router false⟩, ⟨"index.ts", ModOutcome.router false⟩,
        ⟨"README.md", ModOutcome.noRouter⟩] (by decide)
      ⟨"coverageDiff.ts", ModOutcome.router false⟩ (by decide),
    loadPlugins_considered_iff.2 [⟨"broken.ts", ModOutcome.loadFail⟩] []
      ⟨"generateTests.ts", ModOutcome.router false⟩⟩

/-! ## Process-wide state (`src/services/localLLMService.ts`)

`localLLMService` is a module-level singleton whose mutable `provider`
field is assigned inside `initialize()`.  The AI route handlers
(`/ai-generate-tests`, `/ai-health`, `/llm-config`) call
`localLLMService.initialize()` while handling a request; every other
handler never touches process-wide in-memory state.  The environment
(config file content, environment variables, provider health) is a fixed
parameter of a run. -/

/-- An `LLMProviderConfig` as loaded by `LocalLLMService.loadConfig`. -/
structure LLMConfig where
  ptype : String
  baseUrl : Option String
  model : String
  apiKey : Option String
deriving DecidableEq, Repr

/-- The inputs `loadConfig` consults: the `llmProvider` field of a
readable `mcp.config.json` (if any), the environment variables, and the
outcome of the provider health check. -/
structure Env where
  mcpConfig : Option LLMConfig
  llmProviderVar : Option String
  lmstudioBaseUrl : Option String
  ollamaBaseUrl : Option String
  llamacppBaseUrl : Option String
  openaiBaseUrl : Option String
  llmModel : Option String
  openaiApiKey : Option String
  healthy : LLMConfig → Bool

/-- `LocalLLMService.loadConfig`: the config file wins, otherwise the
`LLM_PROVIDER` environment variable selects a default-filled config,
defaulting to OpenAI. -/
def loadConfig (env : Env) : Option LLMConfig :=
  match env.mcpConfig with
  | some c => some c
  | none =>
    let pt := env.llmProviderVar.getD "openai"
    if pt = "lmstudio" then
      some ⟨"lmstudio", some (env.lmstudioBaseUrl.getD "http://localhost:1234"),
        env.llmModel.getD "local-model", none⟩
    else if pt = "ollama" then
      some ⟨"ollama", some (env.ollamaBaseUrl.getD "http://localhost:11434"),
        env.llmModel.getD "llama2", none⟩
    else if pt = "llamacpp" then
      some ⟨"llamacpp", some (env.llamacppBaseUrl.getD "http://localhost:8080"),
        env.llmModel.getD "model.gguf", none⟩
    else if pt = "mlx" then
      some ⟨"mlx", none, env.llmModel.getD "./models/local-model", none⟩
    else
      some ⟨"openai", some (env.openaiBaseUrl.getD "https://api.openai.com/v1"),
        env.llmModel.getD "gpt-3.5-turbo", env.openaiApiKey⟩

/-- The process-wide in-memory state visible across requests: the
singleton's `provider` field. -/
structure ServerState where
  provider : Option LLMConfig
deriving DecidableEq, Repr

/-- `LocalLLMService.initialize()` (renamed `initService` here): assigns
`this.provider` from the loaded config (before the health check), then
reports health. -/
def initService (env : Env) (st : ServerState) : ServerState × Bool :=
  match loadConfig env with
  | none => (st, false)
  | some cfg => (⟨some cfg⟩, env.healthy cfg)

/-- The HTTP endpoints of the server and its plugin routers. -/
inductive Endpoint where
  | health
  | apiInfo
  | setupVitest
  | analyzeCoverage
  | generateTests
  | coverageDiff
  | coverageBadge
  | profileTestsRoute
  | testAnalysis
  | generateHeatmap
  | heatmapPage
  | generateWorkflow
  | generateAllWorkflows
  | ciHealth
  | aiGenerateTests
  | aiHealth
  | llmConfigRoute
deriving DecidableEq, Repr

/-- Whether a handler calls `localLLMService.initialize()`. -/
def usesLLMService : Endpoint → Bool
  | .aiGenerateTests => true
  | .aiHealth => true
  | .llmConfigRoute => true
  | _ => false

/-- The effect of one request handler on the process-wide in-memory
state: the AI handlers run the service initialisation, all others leave
it alone. -/
def handleRequest (env : Env) (ep : Endpoint) (st : ServerState) : ServerState :=
  if usesLLMService ep then (initService env st).1 else st

/-- The environment of a process with no config file, no LLM-related
environment variables, and healthy providers. -/
def defaultEnv : Env :=
  ⟨none, none, none, none, none, none, none, none, fun _ => true⟩

/-- C8 counterexample: handling a single `/ai-generate-tests` request in a
fresh process mutates the process-wide state — `initialize()` stores the
default OpenAI provider config in the `localLLMService` singleton — so a
request handler does modify in-memory state beyond startup
configuration. -/
theorem handleRequest_mutates_state :
    handleRequest defaultEnv .aiGenerateTests ⟨none⟩ ≠ ⟨none⟩ := by
  decide

/-- C8 as amended. Handlers other than the AI endpoints
(`/ai-generate-tests`, `/ai-health`, `/llm-config`) never modify
process-wide in-memory state: for every environment, endpoint outside
those three and state, the state after the handler equals the state
before; the AI endpoints may reassign the singleton's cached provider. -/
theorem handleRequest_frame (env : Env) (ep : Endpoint) (st : ServerState)
    (h : usesLLMService ep = false) :
    handleRequest env ep st = st := by
  unfold handleRequest
  rw [h]
  simp

/-- Witness for C8 (amended): an `/analyze-coverage` request leaves the
singleton untouched. -/
theorem handleRequest_frame_witness :
    usesLLMService .analyzeCoverage = false ∧
      handleRequest defaultEnv .analyzeCoverage ⟨none⟩ = ⟨none⟩ :=
  ⟨by decide, handleRequest_frame defaultEnv .analyzeCoverage ⟨none⟩ (by decide)⟩

/-! ## AI test writer (`generateAITests`)

Iterates over `uncoveredFiles.slice(0, 5)`; for each entry whose source
file exists, asks the LLM backend for a test body (modelled as an oracle
from the absolute source path to an optional completion — `none` covers a
thrown request and a falsy completion, both of which `continue`), and
writes it under `__tests__/ai-generated/` unless the target already
exists. -/

/-- The `__tests__/ai-generated` directory. -/
def aiTestsDir (projectRoot : List String) : List String :=
  projectRoot ++ ["__tests__", "ai-generated"]

/-- One iteration of the `generateAITests` loop body. -/
def aiProcessOne (projectRoot : List String) (llm : List String → Option String)
    (fs : FSys) (u : InPath) : FSys × Option (List String) :=
  let filePath := resolveAbs projectRoot u
  if (fs filePath).isSome = false then (fs, none)
  else
    match llm filePath with
    | none => (fs, none)
    | some generatedTest =>
      let ext := extname filePath
      let componentName := basenameDropExt filePath ext
      let testFilePath := aiTestsDir projectRoot ++ [componentName ++ ".test" ++ ext]
      if (fs testFilePath).isSome then (fs, none)
      else (fsWrite fs testFilePath generatedTest, some testFilePath)

/-- The sequential loop of `generateAITests` over an entry list. -/
def aiRun (projectRoot : List String) (llm : List String → Option String) (fs : FSys) :
    List InPath → FSys × List (List String)
  | [] => (fs, [])
  | u :: rest =>
    match aiProcessOne projectRoot llm fs u with
    | (fs1, r) =>
      match aiRun projectRoot llm fs1 rest with
      | (fs2, out) => (fs2, (match r with | some t => [t] | none => []) ++ out)

/-- `generateAITests projectRoot uncoveredFiles`: the loop over
`uncoveredFiles.slice(0, 5)`, returning the final file system and the
`generatedFiles` list. -/
def generateAITests (projectRoot : List String) (llm : List String → Option String)
    (fs : FSys) (uncoveredFiles : List InPath) : FSys × List (List String) :=
  aiRun projectRoot llm fs (uncoveredFiles.take 5)

/-- Each AI iteration either leaves the file system alone and reports
nothing, or writes one previously absent path and reports it. -/
lemma aiProcessOne_spec (projectRoot : List String) (llm : List String → Option String)
    (fs : FSys) (u : InPath) :
    aiProcessOne projectRoot llm fs u = (fs, none) ∨
      ∃ t c, (fs t).isSome = false ∧
        aiProcessOne projectRoot llm fs u = (fsWrite fs t c, some t) := by
  simp only [aiProcessOne]
  by_cases h1 : (fs (resolveAbs projectRoot u)).isSome = false
  · rw [if_pos h1]
    exact Or.inl rfl
  · rw [if_neg h1]
    cases hl : llm (resolveAbs projectRoot u) with
    | none => exact Or.inl rfl
    | some g =>
      dsimp only
      by_cases h2 : (fs (aiTestsDir projectRoot ++
          [basenameDropExt (resolveAbs projectRoot u) (extname (resolveAbs projectRoot u)) ++
            ".test" ++ extname (resolveAbs projectRoot u)])).isSome
      · rw [if_pos h2]
        exact Or.inl rfl
      · rw [if_neg h2]
        refine Or.inr ⟨_, g, by simpa using h2, rfl⟩

/-- One AI iteration changes the file system only at the path it
reports. -/
lemma aiProcessOne_changes (projectRoot : List String) (llm : List String → Option String)
    (fs : FSys) (u : InPath) (q : List String)
    (h : (aiProcessOne projectRoot llm fs u).1 q ≠ fs q) :
    (aiProcessOne projectRoot llm fs u).2 = some q := by
  rcases aiProcessOne_spec projectRoot llm fs u with hs | ⟨t, c, _, hs⟩
  · rw [hs] at h
    exact absurd rfl h
  · rw [hs] at h ⊢
    by_cases hq : q = t
    · exact congrArg some hq.symm
    · exfalso
      apply h
      show fsWrite fs t c q = fs q
      unfold fsWrite
      rw [if_neg hq]

/-- Over any entry list, the loop returns at most one generated file per
entry, and every file-system change is at a reported path. -/
lemma aiRun_bound (projectRoot : List String) (llm : List String → Option String)
    (l : List InPath) (fs : FSys) :
    (aiRun projectRoot llm fs l).2.length ≤ l.length ∧
      ∀ q, (aiRun projectRoot llm fs l).1 q ≠ fs q → q ∈ (aiRun projectRoot llm fs l).2 := by
  induction l generalizing fs with
  | nil => exact ⟨Nat.le_refl 0, fun q h => absurd rfl h⟩
  | cons u rest ih =>
    obtain ⟨ihlen, ihch⟩ := ih (aiProcessOne projectRoot llm fs u).1
    constructor
    · show ((match (aiProcessOne projectRoot llm fs u).2 with
          | some t => [t] | none => []) ++
          (aiRun projectRoot llm (aiProcessOne projectRoot llm fs u).1 rest).2).length ≤
        rest.length + 1
      rw [List.length_append]
      cases (aiProcessOne projectRoot llm fs u).2 <;>
        simp only [List.length_cons, List.length_nil] <;> omega
    · intro q hch
      show q ∈ (match (aiProcessOne projectRoot llm fs u).2 with
          | some t => [t] | none => []) ++
        (aiRun projectRoot llm (aiProcessOne projectRoot llm fs u).1 rest).2
      refine List.mem_append.mpr ?_
      by_cases hstep : (aiProcessOne projectRoot llm fs u).1 q = fs q
      · refine Or.inr (ihch q ?_)
        show (aiRun projectRoot llm (aiProcessOne projectRoot llm fs u).1 rest).1 q ≠ _
        rw [hstep]
        exact hch
      · refine Or.inl ?_
        rw [aiProcessOne_changes projectRoot llm fs u q hstep]
        exact List.mem_singleton.mpr rfl

/-- C9. A `generateAITests` call processes at most the first five entries:
the returned list of generated test files has at most five elements, and
every path whose content the call changes is among the returned list (so
at most five test files are written). -/
theorem generateAITests_at_most_five (projectRoot : List String)
    (llm : List String → Option String) (fs : FSys) (uncoveredFiles : List InPath) :
    (generateAITests projectRoot llm fs uncoveredFiles).2.length ≤ 5 ∧
      ∀ q, (generateAITests projectRoot llm fs uncoveredFiles).1 q ≠ fs q →
        q ∈ (generateAITests projectRoot llm fs uncoveredFiles).2 := by
  obtain ⟨hlen, hch⟩ := aiRun_bound projectRoot llm (uncoveredFiles.take 5) fs
  refine ⟨le_trans hlen ?_, hch⟩
  calc (uncoveredFiles.take 5).length ≤ 5 := by
        rw [List.length_take]
        exact min_le_left 5 _

/-- Witness for C9: six uncovered entries of which the sources exist, a
total LLM oracle — six inputs yield exactly five generated files, and the
one changed path is reported. -/
theorem generateAITests_at_most_five_witness :
    (generateAITests ["repo"] (fun _ => some "the test")
        (fun q => if q.take 2 = ["repo", "src"] then some "source" else none)
        [⟨false, ["src", "A1.tsx"]⟩, ⟨false, ["src", "A2.tsx"]⟩, ⟨false, ["src", "A3.tsx"]⟩,
          ⟨false, ["src", "A4.tsx"]⟩, ⟨false, ["src", "A5.tsx"]⟩,
          ⟨false, ["src", "A6.tsx"]⟩]).2.length ≤ 5 ∧
      ["repo", "__tests__", "ai-generated", "A1.test.tsx"] ∈
        (generateAITests ["repo"] (fun _ => some "the test")
          (fun q => if q.take 2 = ["repo", "src"] then some "source" else none)
          [⟨false, ["src", "A1.tsx"]⟩, ⟨false, ["src", "A2.tsx"]⟩, ⟨false, ["src", "A3.tsx"]⟩,
            ⟨false, ["src", "A4.tsx"]⟩, ⟨false, ["src", "A5.tsx"]⟩,
            ⟨false, ["src", "A6.tsx"]⟩]).2 :=
  ⟨(generateAITests_at_most_five ["repo"] (fun _ => some "the test")
      (fun q => if q.take 2 = ["repo", "src"] then some "source" else none)
      [⟨false, ["src", "A1.tsx"]⟩, ⟨false, ["src", "A2.tsx"]⟩, ⟨false, ["src", "A3.tsx"]⟩,
        ⟨false, ["src", "A4.tsx"]⟩, ⟨false, ["src", "A5.tsx"]⟩,
        ⟨false, ["src", "A6.tsx"]⟩]).1,
    (generateAITests_at_most_five ["repo"] (fun _ => some "the test")
      (fun q => if q.take 2 = ["repo", "src"] then some "source" else none)
      [⟨false, ["src", "A1.tsx"]⟩, ⟨false, ["src", "A2.tsx"]⟩, ⟨false, ["src", "A3.tsx"]⟩,
        ⟨false, ["src", "A4.tsx"]⟩, ⟨false, ["src", "A5.tsx"]⟩,
        ⟨false, ["src", "A6.tsx"]⟩]).2
      ["repo", "__tests__", "ai-generated", "A1.test.tsx"] (by decide)⟩

/-! ## HTTP route handlers (`src/index.ts`, plugin routers)

Each handler is embedded as a function from the request's relevant input
(the optional `projectPath` body field) and the awaited tool outcome
(`Except`: `.error` models a thrown rejection) to the response it sends.
`generateCoverageDiff` catches a failed `git checkout` itself and returns
a `success: false` value, which the `/coverage-diff` handler answers with
status 400; this internal outcome is a separate constructor. -/

end VitestMCP
